import Mathlib

/-!
Verification of the Image_masker repository (src/masker.py, src/sketcher.py).

The development shallowly embeds the mask-editing core: pixels are triples
of naturals below 256, images are functions from (row, col) to pixels, the
mask buffer is a sized grid of single-channel cells, and the drawing,
compositing, animation and session operations of the two Python classes are
translated into executable Lean functions. OpenCV primitives that the code
calls (cv2.circle, cv2.bitwise_and/or/not, cv2.cvtColor, cv2.countNonZero)
are embedded by their documented pixel-level semantics; cv2.findContours is
kept abstract as a parameter, since only its output shape matters to the
claims below.
-/

/-- Pixel with three 8-bit channels in BGR order, as loaded by cv2.imread
with IMREAD_COLOR. Channel values are naturals, with 0..255 the valid range. -/
structure Pixel where
  b : ℕ
  g : ℕ
  r : ℕ
deriving DecidableEq, Repr

/-- Image as a function from (row, col) to a pixel, the shallow embedding of
a numpy H by W by 3 array. -/
abbrev Image : Type := ℕ → ℕ → Pixel

/-- Single-channel mask plane as a function from (row, col) to a value,
the shallow embedding of a numpy H by W uint8 array. -/
abbrev MaskPlane : Type := ℕ → ℕ → ℕ

/-- Luminance of a BGR pixel, embedding cv2.cvtColor COLOR_BGR2GRAY, which
uses the fixed-point weights R*4899 + G*9617 + B*1868 with 14-bit shift and
rounding. -/
def grayValue (p : Pixel) : ℕ :=
  (1868 * p.b + 9617 * p.g + 4899 * p.r + 8192) / 16384

/-- Replication of the luminance to three channels, embedding
cv2.cvtColor COLOR_GRAY2BGR on the luminance plane (masker.py line 76). -/
def gray3 (p : Pixel) : Pixel :=
  ⟨grayValue p, grayValue p, grayValue p⟩

/-- Embedding of cv2.bitwise_not on a uint8 mask value: the 8-bit complement,
which for a value at most 255 is 255 minus the value. -/
def bitwiseNot8 (m : ℕ) : ℕ := 255 - m

/-- Embedding of cv2.bitwise_and(p, p, mask=m) at one pixel: the pixel itself
where the mask value is nonzero, and the zero pixel elsewhere. -/
def maskedAnd (p : Pixel) (m : ℕ) : Pixel :=
  if m ≠ 0 then p else ⟨0, 0, 0⟩

/-- Embedding of cv2.bitwise_or at one pixel: channelwise bitwise or. -/
def pixelOr (p q : Pixel) : Pixel :=
  ⟨p.b ||| q.b, p.g ||| q.g, p.r ||| q.r⟩

/-- One pixel of ImageMasker.process_mask_and_display (masker.py lines 67-93):
the color region is the source anded under the mask, the gray region is the
3-channel luminance anded under the complemented mask, and the output is
their bitwise or. -/
def processPixel (src : Pixel) (m : ℕ) : Pixel :=
  pixelOr (maskedAnd src m) (maskedAnd (gray3 src) (bitwiseNot8 m))

/-- Whole-image embedding of ImageMasker.process_mask_and_display: the
per-pixel combination applied pointwise to the source image and the mask. -/
def process_mask_and_display (src : Image) (mask : MaskPlane) : Image :=
  fun y x => processPixel (src y x) (mask y x)

/-- Mask buffer: the numpy uint8 array created by ImageMasker._initialize_mask
(masker.py lines 52-61), with its height, width and cell contents. -/
structure MaskBuffer where
  height : ℕ
  width : ℕ
  cells : ℕ → ℕ → ℕ

/-- Mask created all-zero with the dimensions of the source image, embedding
np.zeros((height, width), dtype=np.uint8) in _initialize_mask. -/
def initialMask (h w : ℕ) : MaskBuffer :=
  ⟨h, w, fun _ _ => 0⟩

/-- Embedding of the filled cv2.circle call on the mask (sketcher.py lines 55
and 75): every in-bounds cell within Euclidean distance radius of the center
(cx, cy) is set to 255; cells outside the image extent do not exist, so the
drawn disc is clipped to the extent and the center itself is used unclamped,
exactly as OpenCV clips primitives against the image rectangle. -/
def stampCircle (m : MaskBuffer) (cx cy : ℤ) (radius : ℕ) : MaskBuffer :=
  { m with cells := fun y x =>
      if y < m.height ∧ x < m.width ∧
          ((x : ℤ) - cx) ^ 2 + ((y : ℤ) - cy) ^ 2 ≤ (radius : ℤ) ^ 2
      then 255 else m.cells y x }

/-- Embedding of Sketcher.draw_at_point (sketcher.py lines 53-58): a single
filled circle of the current brush size stamped at the raw callback
coordinates, with no clamping of the coordinates. -/
def draw_at_point (m : MaskBuffer) (x y : ℤ) (brush : ℕ) : MaskBuffer :=
  stampCircle m x y brush

/-- Truncation toward zero of a rational, embedding the Python int() cast
applied to a float in draw_line. -/
def pyTrunc (q : ℚ) : ℤ :=
  if 0 ≤ q then ⌊q⌋ else ⌈q⌉

/-- Integer distance computed by draw_line (sketcher.py line 61):
int(np.sqrt(dx*dx + dy*dy)), the floor of the Euclidean distance. -/
def lineDistance (p1 p2 : ℤ × ℤ) : ℕ :=
  Nat.sqrt ((p2.1 - p1.1) ^ 2 + (p2.2 - p1.2) ^ 2).toNat

/-- Step size chosen by draw_line (sketcher.py line 67):
max(brush_size // 3, 1). -/
def lineStepSize (brush : ℕ) : ℕ := max (brush / 3) 1

/-- Step count chosen by draw_line (sketcher.py line 68):
max(distance // step_size, 1). -/
def lineNumSteps (p1 p2 : ℤ × ℤ) (brush : ℕ) : ℕ :=
  max (lineDistance p1 p2 / lineStepSize brush) 1

/-- Interpolated stamp center of draw_line at index i (sketcher.py lines
70-72): the Python int() truncation of P0 + (i/n) * (P1 - P0), componentwise. -/
def lineInterp (p1 p2 : ℤ × ℤ) (n : ℕ) (i : ℕ) : ℤ × ℤ :=
  (pyTrunc ((p1.1 : ℚ) + ((i : ℚ) / (n : ℚ)) * ((p2.1 : ℚ) - (p1.1 : ℚ))),
   pyTrunc ((p1.2 : ℚ) + ((i : ℚ) / (n : ℚ)) * ((p2.2 : ℚ) - (p1.2 : ℚ))))

/-- Sequence of circle centers stamped by Sketcher.draw_line (sketcher.py
lines 60-78): one stamp at the new point when the integer distance is zero,
and otherwise one stamp at each interpolated point for i = 0..num_steps. -/
def lineStamps (p1 p2 : ℤ × ℤ) (brush : ℕ) : List (ℤ × ℤ) :=
  if lineDistance p1 p2 = 0 then [p2]
  else (List.range (lineNumSteps p1 p2 brush + 1)).map
    (lineInterp p1 p2 (lineNumSteps p1 p2 brush))

/-- Effect of Sketcher.draw_line on the mask: the stamped circles applied in
order. -/
def draw_line (m : MaskBuffer) (p1 p2 : ℤ × ℤ) (brush : ℕ) : MaskBuffer :=
  (lineStamps p1 p2 brush).foldl (fun acc p => stampCircle acc p.1 p.2 brush) m

/-- Embedding of Sketcher.clear_drawing on the mask (sketcher.py line 214):
mask.fill(0) zeroes every cell and keeps the dimensions. -/
def clear_drawing (m : MaskBuffer) : MaskBuffer :=
  ⟨m.height, m.width, fun _ _ => 0⟩

/-- Number of 255-valued cells of the mask, the countSet operation of the
specification, counted over the in-bounds cells. -/
def countSet (m : MaskBuffer) : ℕ :=
  (((Finset.range m.height) ×ˢ (Finset.range m.width)).filter
    (fun p => m.cells p.1 p.2 = 255)).card

/-- Embedding of cv2.countNonZero on the mask (sketcher.py line 96). -/
def countNonZero (m : MaskBuffer) : ℕ :=
  (((Finset.range m.height) ×ˢ (Finset.range m.width)).filter
    (fun p => m.cells p.1 p.2 ≠ 0)).card

/-- Mask-mutating operations of the drawing session: a point stamp, a
rasterized line, or a clear. -/
inductive MaskOp where
  | stamp (x y : ℤ) (brush : ℕ)
  | line (p1 p2 : ℤ × ℤ) (brush : ℕ)
  | clearOp

/-- Application of one mask-mutating operation. -/
def applyOp (m : MaskBuffer) : MaskOp → MaskBuffer
  | MaskOp.stamp x y brush => draw_at_point m x y brush
  | MaskOp.line p1 p2 brush => draw_line m p1 p2 brush
  | MaskOp.clearOp => clear_drawing m

/-- Application of a sequence of mask-mutating operations, earliest first. -/
def applyOps (ops : List MaskOp) (m : MaskBuffer) : MaskBuffer :=
  ops.foldl applyOp m

/-- Invariant of the mask buffer relative to the source image dimensions:
the dimensions agree with the source and every cell value is 0 or 255. -/
def maskInvariant (m : MaskBuffer) (h w : ℕ) : Prop :=
  m.height = h ∧ m.width = w ∧ ∀ y x, m.cells y x = 0 ∨ m.cells y x = 255

/-- Embedding of Sketcher.set_brush_size (sketcher.py lines 207-208):
max(1, min(50, size)). -/
def set_brush_size (size : ℤ) : ℤ := max 1 (min 50 size)

/-- Embedding of ImageMasker.change_brush_size (masker.py lines 121-131):
the stored size plus the delta, passed through set_brush_size. -/
def change_brush_size (current delta : ℤ) : ℤ :=
  set_brush_size (current + delta)

/-- Clamping of a coordinate pair to the image extent.
Modelled from the spec: section 7 requires an OutOfBoundsCoordinate pointer
position to be clamped to the nearest valid coordinate before rasterization;
this operation is absent from sketcher.py, whose mouse_callback and
draw_at_point pass the raw coordinates straight to cv2.circle. -/
def clamped_draw_at_point (m : MaskBuffer) (x y : ℤ) (brush : ℕ) : MaskBuffer :=
  stampCircle m (max 0 (min ((m.width : ℤ) - 1) x))
    (max 0 (min ((m.height : ℤ) - 1) y)) brush

/-- Contour: a sequence of integer points, as returned by cv2.findContours. -/
abbrev Contour : Type := List (ℤ × ℤ)

/-- Contours that Sketcher.draw_marching_ants (sketcher.py lines 94-108)
hands to the dashed-outline renderer: none when the mask has no nonzero cell
(the early return on line 96, taken before any contour extraction), and
otherwise the extracted contours with those of fewer than 3 points skipped
by the continue on lines 104-105. The extraction itself is cv2.findContours,
kept abstract as the tracer argument. -/
def renderedContours (tracer : MaskBuffer → List Contour) (m : MaskBuffer) :
    List Contour :=
  if countNonZero m = 0 then []
  else (tracer m).filter (fun c => 3 ≤ c.length)

/-- Python float modulo with a positive modulus, x % m = x - m * floor(x/m),
over the rationals. -/
def pyMod (x m : ℚ) : ℚ := x - m * ⌊x / m⌋

/-- Embedding of Sketcher.animate_ants (sketcher.py lines 203-205):
ant_offset = (ant_offset + 0.5) % 12. -/
def animate_ants (phase : ℚ) : ℚ := pyMod (phase + 1 / 2) 12

/-- Channelwise 8-bit inversion of a pixel, embedding the numpy expression
255 - display_image at a masked position (sketcher.py line 86). -/
def invertPixel (p : Pixel) : Pixel :=
  ⟨255 - p.b, 255 - p.g, 255 - p.r⟩

/-- Compositing step of Sketcher.update_display (sketcher.py lines 80-86),
before the marching-ants overlay and brush cursor are painted on top: the
display is reset to the original image and inverted exactly where the mask
value is 255. -/
def update_display_base (orig : Image) (mask : MaskPlane) : Image :=
  fun y x => if mask y x = 255 then invertPixel (orig y x) else orig y x

/-- Session state of ImageMasker that save_output can observe or change:
the mask, the source image, the optional processed output, the brush size. -/
structure MaskerState where
  mask : MaskBuffer
  srcImage : Image
  outputImage : Option Image
  brushSize : ℤ

/-- Embedding of ImageMasker.save_output (masker.py lines 108-119): when an
output image exists it is handed to the host write (returned as the second
component together with the path), and when none exists nothing is written;
in both cases the session state is returned unchanged. -/
def save_output (st : MaskerState) (path : String) :
    MaskerState × Option (String × Image) :=
  match st.outputImage with
  | some img => (st, some (path, img))
  | none => (st, none)

/-! Helper lemmas. -/

theorem processPixel_at_255 (p : Pixel) : processPixel p 255 = p := by
  simp [processPixel, maskedAnd, bitwiseNot8, pixelOr, Nat.or_zero]

theorem processPixel_at_0 (p : Pixel) : processPixel p 0 = gray3 p := by
  simp [processPixel, maskedAnd, bitwiseNot8, pixelOr, Nat.zero_or]

theorem stampCircle_invariant {m : MaskBuffer} {h w : ℕ} (cx cy : ℤ) (r : ℕ)
    (hm : maskInvariant m h w) : maskInvariant (stampCircle m cx cy r) h w := by
  obtain ⟨hh, hw, hcells⟩ := hm
  refine ⟨hh, hw, fun y x => ?_⟩
  simp only [stampCircle]
  split
  · exact Or.inr rfl
  · exact hcells y x

theorem foldl_stampCircle_invariant {h w : ℕ} (r : ℕ) (l : List (ℤ × ℤ)) :
    ∀ m : MaskBuffer, maskInvariant m h w →
      maskInvariant (l.foldl (fun acc p => stampCircle acc p.1 p.2 r) m) h w := by
  induction l with
  | nil => exact fun m hm => hm
  | cons p l ih =>
      intro m hm
      exact ih _ (stampCircle_invariant p.1 p.2 r hm)

theorem applyOp_invariant {m : MaskBuffer} {h w : ℕ} (op : MaskOp)
    (hm : maskInvariant m h w) : maskInvariant (applyOp m op) h w := by
  cases op with
  | stamp x y brush => exact stampCircle_invariant x y brush hm
  | line p1 p2 brush => exact foldl_stampCircle_invariant brush _ m hm
  | clearOp => exact ⟨hm.1, hm.2.1, fun _ _ => Or.inl rfl⟩

theorem applyOps_invariant {h w : ℕ} (ops : List MaskOp) :
    ∀ m : MaskBuffer, maskInvariant m h w →
      maskInvariant (applyOps ops m) h w := by
  induction ops with
  | nil => exact fun _ hm => hm
  | cons op ops ih =>
      intro m hm
      exact ih _ (applyOp_invariant op hm)

theorem pyTrunc_intCast (z : ℤ) : pyTrunc (z : ℚ) = z := by
  unfold pyTrunc
  split
  · exact Int.floor_intCast z
  · exact Int.ceil_intCast z

theorem pyMod_eq_fract (x : ℚ) : pyMod x 12 = 12 * Int.fract (x / 12) := by
  unfold pyMod Int.fract
  ring

theorem pyMod_nonneg (x : ℚ) : 0 ≤ pyMod x 12 := by
  rw [pyMod_eq_fract]
  exact mul_nonneg (by norm_num) (Int.fract_nonneg _)

theorem pyMod_lt_twelve (x : ℚ) : pyMod x 12 < 12 := by
  rw [pyMod_eq_fract]
  have h := Int.fract_lt_one (x / 12)
  linarith

theorem pyMod_eq_self {x : ℚ} (h0 : 0 ≤ x) (h12 : x < 12) : pyMod x 12 = x := by
  have hfloor : ⌊x / 12⌋ = 0 := by
    rw [Int.floor_eq_zero_iff]
    constructor
    · positivity
    · rw [div_lt_one (by norm_num)]
      exact h12
  simp [pyMod, hfloor]

theorem pyMod_sub_int_mul (x : ℚ) (k : ℤ) :
    pyMod (x - 12 * (k : ℚ)) 12 = pyMod x 12 := by
  have hdiv : (x - 12 * (k : ℚ)) / 12 = x / 12 - (k : ℚ) := by ring
  unfold pyMod
  rw [hdiv, Int.floor_sub_int]
  push_cast
  ring

theorem pyMod_pyMod_add (x b : ℚ) :
    pyMod (pyMod x 12 + b) 12 = pyMod (x + b) 12 := by
  have h : pyMod x 12 + b = (x + b) - 12 * ((⌊x / 12⌋ : ℤ) : ℚ) := by
    unfold pyMod
    ring
  rw [h, pyMod_sub_int_mul]

theorem animate_ants_iterate {p : ℚ} (h0 : 0 ≤ p) (h12 : p < 12) (n : ℕ) :
    animate_ants^[n] p = pyMod (p + n / 2) 12 := by
  induction n with
  | zero =>
      simp only [Function.iterate_zero_apply, Nat.cast_zero, zero_div, add_zero]
      exact (pyMod_eq_self h0 h12).symm
  | succ n ih =>
      rw [Function.iterate_succ_apply', ih]
      unfold animate_ants
      rw [pyMod_pyMod_add]
      congr 1
      push_cast
      ring

/-! Claim theorems. -/

/-- C1: for every source image and every binary mask,
process_mask_and_display yields the source pixel where the mask cell is 255
and the 3-channel grayscale replicate where the mask cell is 0; an all-255
mask reproduces the source exactly and an all-0 mask yields the grayscale
replicate everywhere. -/
theorem process_mask_and_display_blend (src : Image) (mask : MaskPlane) :
    (∀ y x, mask y x = 255 →
      process_mask_and_display src mask y x = src y x) ∧
    (∀ y x, mask y x = 0 →
      process_mask_and_display src mask y x = gray3 (src y x)) ∧
    ((∀ y x, mask y x = 255) → process_mask_and_display src mask = src) ∧
    ((∀ y x, mask y x = 0) →
      process_mask_and_display src mask = fun y x => gray3 (src y x)) := by
  refine ⟨fun y x h => ?_, fun y x h => ?_, fun h => ?_, fun h => ?_⟩
  · simp only [process_mask_and_display, h, processPixel_at_255]
  · simp only [process_mask_and_display, h, processPixel_at_0]
  · funext y x
    simp only [process_mask_and_display, h y x, processPixel_at_255]
  · funext y x
    simp only [process_mask_and_display, h y x, processPixel_at_0]

/-- Witness for C1: a constant source under the all-255 mask is returned
byte-identical. -/
theorem process_mask_and_display_blend_witness :
    process_mask_and_display (fun _ _ => ⟨10, 20, 30⟩) (fun _ _ => 255) =
      (fun _ _ => ⟨10, 20, 30⟩) :=
  (process_mask_and_display_blend (fun _ _ => ⟨10, 20, 30⟩)
    (fun _ _ => 255)).2.2.1 (fun _ _ => rfl)

/-- C3: starting from the all-zero mask with the source image dimensions,
any sequence of mask-mutating operations (point stamps, rasterized lines,
clears) keeps the dimensions equal to the source dimensions and keeps every
cell value in the set containing 0 and 255. -/
theorem mask_operations_preserve_invariant (ops : List MaskOp) (h w : ℕ) :
    maskInvariant (applyOps ops (initialMask h w)) h w :=
  applyOps_invariant ops (initialMask h w) ⟨rfl, rfl, fun _ _ => Or.inl rfl⟩

/-- C4: clearing the mask leaves zero set cells, and clearing is idempotent:
two consecutive clears give exactly the state of one clear. -/
theorem clear_drawing_empties_and_idempotent (m : MaskBuffer) :
    countSet (clear_drawing m) = 0 ∧
    clear_drawing (clear_drawing m) = clear_drawing m := by
  constructor
  · simp [countSet, clear_drawing]
  · rfl

/-- C5: the stored brush size is the requested size clamped to the interval
from 1 to 50, with 0 clamped to 1 and 1000 clamped to 50, and the size-10
session moved by delta +2 and then delta -4 ends at exactly 8. -/
theorem brush_size_clamped :
    (∀ s : ℤ, set_brush_size s = max 1 (min 50 s)) ∧
    set_brush_size 0 = 1 ∧
    set_brush_size 1000 = 50 ∧
    change_brush_size (change_brush_size 10 2) (-4) = 8 :=
  ⟨fun _ => rfl, by decide, by decide, by decide⟩

/-- C6 counterexample: at image size 4 by 4 with brush radius 1, the pointer
position (-10, 0) is out of bounds; the code stamps at the raw position, so
the disc misses the extent entirely and cell (0, 0) stays 0, while the
clamped rasterization required by the claim would stamp at (0, 0) and set
that cell to 255. Hence the coordinate used for rasterization is not
clamped before stamping. -/
theorem draw_at_point_not_clamped :
    (draw_at_point (initialMask 4 4) (-10) 0 1).cells 0 0 = 0 ∧
    (clamped_draw_at_point (initialMask 4 4) (-10) 0 1).cells 0 0 = 255 := by
  constructor <;> decide

/-- C6 amended: an out-of-bounds pointer position never aborts and never
changes the mask dimensions, but the position is used unclamped: the stamp
is clipped to the image extent, so exactly the in-bounds cells within the
brush radius of the raw position become 255 and every other cell is
unchanged; a position farther than the brush radius outside the extent
changes no cell at all. -/
theorem draw_at_point_clips (m : MaskBuffer) (x y : ℤ) (brush : ℕ) :
    (draw_at_point m x y brush).height = m.height ∧
    (draw_at_point m x y brush).width = m.width ∧
    (∀ (i j : ℕ), i < m.height → j < m.width →
      (draw_at_point m x y brush).cells i j =
        if ((j : ℤ) - x) ^ 2 + ((i : ℤ) - y) ^ 2 ≤ (brush : ℤ) ^ 2
        then 255 else m.cells i j) ∧
    ((∀ (i j : ℕ), i < m.height → j < m.width →
        ¬(((j : ℤ) - x) ^ 2 + ((i : ℤ) - y) ^ 2 ≤ (brush : ℤ) ^ 2)) →
      ∀ (i j : ℕ), i < m.height → j < m.width →
        (draw_at_point m x y brush).cells i j = m.cells i j) := by
  refine ⟨rfl, rfl, fun i j hi hj => ?_, fun hfar i j hi hj => ?_⟩
  · simp only [draw_at_point, stampCircle]
    by_cases hd : ((j : ℤ) - x) ^ 2 + ((i : ℤ) - y) ^ 2 ≤ (brush : ℤ) ^ 2
    · simp [hi, hj, hd]
    · simp [hd]
  · simp only [draw_at_point, stampCircle]
    simp [hfar i j hi hj]

/-- Witness for C6 amended: the in-bounds stamp at (2, 2) with radius 1 on a
4 by 4 mask sets the center cell. -/
theorem draw_at_point_clips_witness :
    (draw_at_point (initialMask 4 4) 2 2 1).cells 2 2 =
      (if (((2 : ℕ) : ℤ) - 2) ^ 2 + (((2 : ℕ) : ℤ) - 2) ^ 2 ≤ ((1 : ℕ) : ℤ) ^ 2
       then 255 else (initialMask 4 4).cells 2 2) :=
  (draw_at_point_clips (initialMask 4 4) 2 2 1).2.2.1 2 2 (by decide) (by decide)

/-- C7: when every in-bounds mask cell is 0 the marching-ants pass renders
no contour (the early return fires before any extraction), every contour
that does get a dashed outline has at least 3 points, and a contour with
fewer than 3 points is skipped without being rendered, whatever the
extraction returns. -/
theorem marching_ants_filters_contours (tracer : MaskBuffer → List Contour)
    (m : MaskBuffer) :
    ((∀ y x, y < m.height → x < m.width → m.cells y x = 0) →
      renderedContours tracer m = []) ∧
    (∀ c ∈ renderedContours tracer m, 3 ≤ c.length) ∧
    (∀ c : Contour, c.length < 3 → c ∉ renderedContours tracer m) := by
  have hmem : ∀ c ∈ renderedContours tracer m, 3 ≤ c.length := by
    intro c hc
    unfold renderedContours at hc
    split at hc
    · simp at hc
    · exact of_decide_eq_true (List.mem_filter.mp hc).2
  refine ⟨fun hzero => ?_, hmem, fun c hlt hc => ?_⟩
  · have hcount : countNonZero m = 0 := by
      unfold countNonZero
      rw [Finset.card_eq_zero, Finset.filter_eq_empty_iff]
      intro p hp
      rw [Finset.mem_product, Finset.mem_range, Finset.mem_range] at hp
      simp [hzero p.1 p.2 hp.1 hp.2]
    unfold renderedContours
    rw [if_pos hcount]
  · exact absurd (hmem c hc) (by omega)

/-- Witness for C7: on the all-zero 2 by 2 mask nothing is rendered, for the
tracer that would return a short contour. -/
theorem marching_ants_filters_contours_witness :
    renderedContours (fun _ => [[((0 : ℤ), (0 : ℤ))]]) (initialMask 2 2) = [] :=
  (marching_ants_filters_contours (fun _ => [[((0 : ℤ), (0 : ℤ))]])
    (initialMask 2 2)).1 (fun _ _ _ _ => rfl)

/-- C8: for a phase in the interval from 0 inclusive to 12 exclusive, one
animation tick replaces the phase by (phase + 0.5) reduced modulo the
pattern length 12, the result stays in that interval, and 24 consecutive
ticks return the phase exactly to its starting value. -/
theorem animate_ants_cyclic (phase : ℚ) (h0 : 0 ≤ phase) (h12 : phase < 12) :
    animate_ants phase = (phase + 1 / 2) - 12 * ⌊(phase + 1 / 2) / 12⌋ ∧
    0 ≤ animate_ants phase ∧ animate_ants phase < 12 ∧
    animate_ants^[24] phase = phase := by
  refine ⟨rfl, pyMod_nonneg _, pyMod_lt_twelve _, ?_⟩
  rw [animate_ants_iterate h0 h12 24]
  have h : phase + (24 : ℕ) / 2 = phase - 12 * ((-1 : ℤ) : ℚ) := by
    push_cast
    ring
  rw [h, pyMod_sub_int_mul, pyMod_eq_self h0 h12]

/-- Witness for C8: starting phase 0 stays in range and returns to 0 after
24 ticks. -/
theorem animate_ants_cyclic_witness :
    animate_ants (0 : ℚ) = ((0 : ℚ) + 1 / 2) - 12 * ⌊((0 : ℚ) + 1 / 2) / 12⌋ ∧
    0 ≤ animate_ants (0 : ℚ) ∧ animate_ants (0 : ℚ) < 12 ∧
    animate_ants^[24] (0 : ℚ) = 0 :=
  animate_ants_cyclic 0 (by norm_num) (by norm_num)

/-- C9 counterexample: for the constant source pixel (100, 150, 200), the
preview of update_display at a mask-255 position is the inverted pixel
(155, 105, 55), not the unchanged source pixel, and at a mask-0 position it
is the unchanged source pixel, not its grayscale replicate (159, 159, 159).
Both halves of the claim fail on the code. -/
theorem update_display_not_desaturating :
    update_display_base (fun _ _ => ⟨100, 150, 200⟩) (fun _ _ => 255) 0 0 ≠
      (⟨100, 150, 200⟩ : Pixel) ∧
    update_display_base (fun _ _ => ⟨100, 150, 200⟩) (fun _ _ => 0) 0 0 ≠
      gray3 ⟨100, 150, 200⟩ := by
  constructor <;> decide

/-- C9 amended: in the preview produced by update_display, before the
marching-ants overlay and the brush cursor are painted on top, every pixel
whose mask cell is 255 equals the channelwise 8-bit inversion of the source
pixel, and every pixel whose mask cell is 0 equals the source pixel
unchanged; the color-and-grayscale composite appears only in the separate
process_mask_and_display operation. -/
theorem update_display_inverts (orig : Image) (mask : MaskPlane) (y x : ℕ) :
    (mask y x = 255 →
      update_display_base orig mask y x = invertPixel (orig y x)) ∧
    (mask y x = 0 → update_display_base orig mask y x = orig y x) := by
  constructor
  · intro h
    simp [update_display_base, h]
  · intro h
    simp [update_display_base, h]

/-- Witness for C9 amended: the constant mask-255 preview pixel is the
inversion of the source pixel. -/
theorem update_display_inverts_witness :
    update_display_base (fun _ _ => ⟨100, 150, 200⟩) (fun _ _ => 255) 0 0 =
      invertPixel ⟨100, 150, 200⟩ :=
  (update_display_inverts (fun _ _ => ⟨100, 150, 200⟩)
    (fun _ _ => 255) 0 0).1 rfl

/-- C10: when no composite output exists yet, save_output writes nothing
(no host write request is produced) and returns the session state unchanged:
mask, source image, output image and brush size are all as before. -/
theorem save_output_none_noop (st : MaskerState) (path : String)
    (h : st.outputImage = none) : save_output st path = (st, none) := by
  simp [save_output, h]

/-- Witness for C10: a fresh session with no output image is returned
unchanged with no write request. -/
theorem save_output_none_noop_witness :
    save_output ⟨initialMask 2 2, fun _ _ => ⟨0, 0, 0⟩, none, 10⟩ "out.jpg" =
      (⟨initialMask 2 2, fun _ _ => ⟨0, 0, 0⟩, none, 10⟩, none) :=
  save_output_none_noop ⟨initialMask 2 2, fun _ _ => ⟨0, 0, 0⟩, none, 10⟩
    "out.jpg" rfl

/-- C2: the integer distance of draw_line is the floor of the Euclidean
distance between the two points (characterized by the two square bounds);
when it is zero the code stamps exactly once at the new point; and when it
is positive the code stamps a circle of the brush radius at each of the
n + 1 evenly spaced interpolation points P0 + (i / n) * (P1 - P0) for
i = 0..n, where n = max(1, floor(distance / step_unit)) and
step_unit = max(1, brush / 3), both endpoints included exactly. -/
theorem draw_line_interpolates (p1 p2 : ℤ × ℤ) (brush : ℕ) :
    lineDistance p1 p2 * lineDistance p1 p2 ≤
      ((p2.1 - p1.1) ^ 2 + (p2.2 - p1.2) ^ 2).toNat ∧
    ((p2.1 - p1.1) ^ 2 + (p2.2 - p1.2) ^ 2).toNat <
      (lineDistance p1 p2 + 1) * (lineDistance p1 p2 + 1) ∧
    (lineDistance p1 p2 = 0 → lineStamps p1 p2 brush = [p2]) ∧
    (0 < lineDistance p1 p2 →
      lineNumSteps p1 p2 brush =
        max 1 (lineDistance p1 p2 / max 1 (brush / 3)) ∧
      lineStamps p1 p2 brush =
        (List.range (lineNumSteps p1 p2 brush + 1)).map
          (lineInterp p1 p2 (lineNumSteps p1 p2 brush)) ∧
      (lineStamps p1 p2 brush).length = lineNumSteps p1 p2 brush + 1 ∧
      lineInterp p1 p2 (lineNumSteps p1 p2 brush) 0 = p1 ∧
      lineInterp p1 p2 (lineNumSteps p1 p2 brush)
        (lineNumSteps p1 p2 brush) = p2 ∧
      ∀ m : MaskBuffer, draw_line m p1 p2 brush =
        (lineStamps p1 p2 brush).foldl
          (fun acc q => stampCircle acc q.1 q.2 brush) m) := by
  have hn1 : 1 ≤ lineNumSteps p1 p2 brush := le_max_right _ 1
  have hnQ : ((lineNumSteps p1 p2 brush : ℕ) : ℚ) ≠ 0 := by
    exact_mod_cast Nat.one_le_iff_ne_zero.mp hn1
  refine ⟨Nat.sqrt_le _, Nat.lt_succ_sqrt _, fun hd => ?_, fun hd => ?_⟩
  · unfold lineStamps
    rw [if_pos hd]
  · have hmap : lineStamps p1 p2 brush =
        (List.range (lineNumSteps p1 p2 brush + 1)).map
          (lineInterp p1 p2 (lineNumSteps p1 p2 brush)) := by
      unfold lineStamps
      rw [if_neg (Nat.pos_iff_ne_zero.mp hd)]
    refine ⟨?_, hmap, ?_, ?_, ?_, fun m => rfl⟩
    · unfold lineNumSteps lineStepSize
      rw [Nat.max_comm (brush / 3) 1]
      exact Nat.max_comm _ _
    · rw [hmap]
      simp
    · simp [lineInterp, pyTrunc_intCast]
    · have hdiv : ((lineNumSteps p1 p2 brush : ℕ) : ℚ) /
          ((lineNumSteps p1 p2 brush : ℕ) : ℚ) = 1 := div_self hnQ
      unfold lineInterp
      rw [hdiv]
      have e1 : ((p1.1 : ℚ)) + 1 * ((p2.1 : ℚ) - (p1.1 : ℚ)) =
          ((p2.1 : ℤ) : ℚ) := by
        ring
      have e2 : ((p1.2 : ℚ)) + 1 * ((p2.2 : ℚ) - (p1.2 : ℚ)) =
          ((p2.2 : ℤ) : ℚ) := by
        ring
      rw [e1, e2, pyTrunc_intCast, pyTrunc_intCast]

/-- Witness for C2: the stroke from (0, 0) to (5, 0) with brush 10 has
positive integer distance 5 and is stamped at the interpolated points, and
the degenerate stroke at (3, 4) is stamped exactly once at (3, 4). -/
theorem draw_line_interpolates_witness :
    lineStamps ((0 : ℤ), (0 : ℤ)) (5, 0) 10 =
      (List.range (lineNumSteps ((0 : ℤ), (0 : ℤ)) (5, 0) 10 + 1)).map
        (lineInterp ((0 : ℤ), (0 : ℤ)) (5, 0)
          (lineNumSteps ((0 : ℤ), (0 : ℤ)) (5, 0) 10)) ∧
    lineStamps ((3 : ℤ), (4 : ℤ)) (3, 4) 10 = [(3, 4)] := by
  constructor
  · refine (((draw_line_interpolates ((0 : ℤ), (0 : ℤ)) (5, 0) 10).2.2.2)
      ?_).2.1
    have h5 : lineDistance ((0 : ℤ), (0 : ℤ)) (5, 0) = 5 := by
      unfold lineDistance
      norm_num
      rw [show Int.toNat 25 = 5 ^ 2 by decide]
      exact Nat.sqrt_eq' 5
    omega
  · refine ((draw_line_interpolates ((3 : ℤ), (4 : ℤ)) (3, 4) 10).2.2.1) ?_
    unfold lineDistance
    norm_num
